import Mathlib

/-!
Verification development of `main.go` of macbook-setup.

The program is a linear sequence of shell-outs to Homebrew followed by a copy of
dotfiles into the home directory.  Everything it does is an interaction with the
outside world, so the embedding is explicit state passing over a *trace*:

* an `Env` gives the outcome of every external call (subprocess, file read, file
  write, working directory, home directory, YAML decoding).  The outcome of a call
  may depend on the whole history of earlier calls, so nothing is assumed about the
  external tools beyond determinism of one run;
* every Go function `f(args) error` becomes `f env args h : Option String × Trace`:
  it takes the history `h` so far and returns the error (`none` is Go's `nil`, the
  string is `err.Error()`) together with the extended history.

Go `string` and `[]byte` values are both represented by `String`.  A Go
`map[string][]string` is represented by the sequence of its entries in the order in
which the `range` statement visits them; theorems quantify over every such sequence.
Writes to standard output (`fmt.Printf`, `fmt.Println`) are not part of the trace.
-/

namespace MacSetup

/-! ## External world -/

/-- Outcome of running a subprocess: the error of `Run` or `CombinedOutput`
(`none` is `nil`) and the combined standard output and standard error. -/
structure CmdResult where
  err : Option String
  output : String
  deriving DecidableEq, Repr

deriving instance DecidableEq for Except

/-- One interaction with the outside world, with its outcome. -/
inductive Event where
  | exec (argv : List String) (res : CmdResult)
  | readFile (path : String) (res : Except String String)
  | writeFile (path : String) (data : String) (perm : Nat) (err : Option String)
  deriving DecidableEq, Repr

abbrev Trace := List Event

/-- Brew section of the configuration (`type Brew struct`). -/
structure Brew where
  Taps : List String
  Formulae : List (String × List String)
  Casks : List (String × List String)
  deriving DecidableEq, Repr

/-- Root of the configuration (`type Config struct`). -/
structure Config where
  Brew : Brew
  Dotfiles : List String
  deriving DecidableEq, Repr

/-- The outside world.  Each oracle receives the history of the run so far. -/
structure Env where
  /-- `exec.Command(argv...).Run()` and `.CombinedOutput()`. -/
  run : Trace → List String → CmdResult
  /-- `os.ReadFile(path)`. -/
  readFile : Trace → String → Except String String
  /-- `os.WriteFile(path, data, perm)`; `none` is success. -/
  writeFile : Trace → String → String → Nat → Option String
  /-- `os.Getwd()`. -/
  getwd : Except String String
  /-- `os.UserHomeDir()`. -/
  userHomeDir : Except String String
  /-- `yaml.Unmarshal(data, &cfg)`. -/
  unmarshal : String → Except String Config

/-! ## Library functions used by the program -/

/-- Substring test on character lists: the needle is a prefix of some suffix. -/
def containsChars : List Char → List Char → Bool
  | [], sub => sub.isEmpty
  | c :: cs, sub => sub.isPrefixOf (c :: cs) || containsChars cs sub

/-- Go `strings.Contains(s, substr)`. -/
def stringsContains (s substr : String) : Bool :=
  containsChars s.data substr.data

/-- Split a path at every slash (empty components are kept). -/
def splitSlash : List Char → List (List Char)
  | [] => [[]]
  | c :: cs =>
    if c = '/' then [] :: splitSlash cs
    else
      match splitSlash cs with
      | [] => [[c]]
      | x :: xs => (c :: x) :: xs

/-- One step of the lexical cleaning of Go `filepath.Clean`: the stack holds the
components kept so far, most recent first.  Empty and `.` components are dropped; a
`..` component removes the previous real component, is dropped at the root, and is
kept at the front of a relative path. -/
def cleanPush (rooted : Bool) (stack : List (List Char)) (comp : List Char) :
    List (List Char) :=
  if comp = [] ∨ comp = ['.'] then stack
  else if comp = ['.', '.'] then
    match stack with
    | [] => if rooted then [] else [comp]
    | top :: rest => if top = ['.', '.'] then comp :: stack else rest
  else comp :: stack

/-- Go `filepath.Clean` for slash-separated paths, on character lists. -/
def cleanChars (path : List Char) : List Char :=
  match path with
  | [] => ['.']
  | c :: _ =>
    let rooted : Bool := c = '/'
    let comps := ((splitSlash path).foldl (cleanPush rooted) []).reverse
    let body := List.intercalate ['/'] comps
    if rooted then '/' :: body
    else if body = [] then ['.'] else body

/-- Go `filepath.Clean` for slash-separated paths. -/
def filepathClean (path : String) : String :=
  String.mk (cleanChars path.data)

/-- Go `filepath.Join(a, b)`: the non-empty leading elements are joined by a slash
and the result is cleaned; joining two empty strings gives the empty string. -/
def filepathJoin (a b : String) : String :=
  if a ≠ "" then filepathClean (a ++ "/" ++ b)
  else if b ≠ "" then filepathClean b
  else ""

/-! ## Primitive steps -/

/-- Run a subprocess and record it. -/
def runCmd (env : Env) (argv : List String) (h : Trace) : CmdResult × Trace :=
  let r := env.run h argv
  (r, h ++ [Event.exec argv r])

/-- Read a file and record it. -/
def osReadFile (env : Env) (path : String) (h : Trace) : Except String String × Trace :=
  let r := env.readFile h path
  (r, h ++ [Event.readFile path r])

/-- Write a file and record it. -/
def osWriteFile (env : Env) (path data : String) (perm : Nat) (h : Trace) :
    Option String × Trace :=
  let r := env.writeFile h path data perm
  (r, h ++ [Event.writeFile path data perm r])

/-! ## The program -/

/-- Argument vector of the Homebrew installer shell-out. -/
def installerArgv : List String :=
  ["/bin/bash", "-c",
   "curl -fsSL https://raw.githubusercontent.com/Homebrew/install/HEAD/install.sh | bash"]

/-- Argument vector of `brew --version`. -/
def versionArgv : List String := ["brew", "--version"]

/-- Argument vector of `brew tap <tap>`. -/
def tapArgv (tap : String) : List String := ["brew", "tap", tap]

/-- Argument vector of `brew list --formula <pkg>`. -/
def formulaListArgv (pkg : String) : List String := ["brew", "list", "--formula", pkg]

/-- Argument vector of `brew install <pkg>`. -/
def formulaInstallArgv (pkg : String) : List String := ["brew", "install", pkg]

/-- Argument vector of `brew list --cask <pkg>`. -/
def caskListArgv (pkg : String) : List String := ["brew", "list", "--cask", pkg]

/-- Argument vector of `brew install --cask <pkg>`. -/
def caskInstallArgv (pkg : String) : List String := ["brew", "install", "--cask", pkg]

/-- Go `installHomebrew`: verifies Homebrew is present and installs it if necessary. -/
def installHomebrew (env : Env) (h : Trace) : Bool × Trace :=
  let v := runCmd env versionArgv h
  match v.1.err with
  | none => (true, v.2)
  | some _ =>
    let i := runCmd env installerArgv v.2
    match i.1.err with
    | some _ => (false, i.2)
    | none => (true, i.2)

/-- Go `ensureTaps`: adds every tap, stopping at the first failure. -/
def ensureTaps (env : Env) : List String → Trace → Option String × Trace
  | [], h => (none, h)
  | tap :: rest, h =>
    let r := runCmd env (tapArgv tap) h
    match r.1.err with
    | some e => (some ("tap " ++ tap ++ ": " ++ e), r.2)
    | none => ensureTaps env rest r.2

/-- Go `installFormula`: installs a single formula if not already installed. -/
def installFormula (env : Env) (pkg : String) (h : Trace) : Option String × Trace :=
  let q := runCmd env (formulaListArgv pkg) h
  match q.1.err with
  | none => (none, q.2)
  | some _ =>
    let i := runCmd env (formulaInstallArgv pkg) q.2
    match i.1.err with
    | some e => (some ("install " ++ pkg ++ ": " ++ e), i.2)
    | none => (none, i.2)

/-- Go `installCask`: installs a single cask if not already installed. -/
def installCask (env : Env) (pkg : String) (h : Trace) : Option String × Trace :=
  let q := runCmd env (caskListArgv pkg) h
  match q.1.err with
  | none => (none, q.2)
  | some _ =>
    let i := runCmd env (caskInstallArgv pkg) q.2
    match i.1.err with
    | some e =>
      let outStr := i.1.output
      if stringsContains outStr "already an app at" || stringsContains outStr "already installed"
      then (none, i.2)
      else (some ("install cask " ++ pkg ++ " failed: " ++ e ++ "\n" ++ outStr), i.2)
    | none => (none, i.2)

/-- The inner loop `for _, pkg := range pkgs` of `ensureFormulae` and `ensureCasks`:
the first error is returned at once. -/
def rangePkgs (install : String → Trace → Option String × Trace) :
    List String → Trace → Option String × Trace
  | [], h => (none, h)
  | pkg :: rest, h =>
    let r := install pkg h
    match r.1 with
    | some e => (some e, r.2)
    | none => rangePkgs install rest r.2

/-- The outer loop `for cat, pkgs := range categories` of `ensureFormulae` and
`ensureCasks`, over the entries in the order the loop visits them. -/
def rangeCategories (install : String → Trace → Option String × Trace) :
    List (String × List String) → Trace → Option String × Trace
  | [], h => (none, h)
  | cat :: rest, h =>
    let r := rangePkgs install cat.2 h
    match r.1 with
    | some e => (some e, r.2)
    | none => rangeCategories install rest r.2

/-- Go `ensureFormulae`: installs any missing Homebrew formulae. -/
def ensureFormulae (env : Env) (categories : List (String × List String)) (h : Trace) :
    Option String × Trace :=
  rangeCategories (installFormula env) categories h

/-- Go `ensureCasks`: installs any missing Homebrew casks. -/
def ensureCasks (env : Env) (categories : List (String × List String)) (h : Trace) :
    Option String × Trace :=
  rangeCategories (installCask env) categories h

/-- The loop `for _, name := range files` of `ensureDotfiles`. -/
def copyDotfiles (env : Env) (dotDir homeDir : String) :
    List String → Trace → Option String × Trace
  | [], h => (none, h)
  | name :: rest, h =>
    let src := filepathJoin dotDir name
    let dest := filepathJoin homeDir name
    let rd := osReadFile env src h
    match rd.1 with
    | .error _ => copyDotfiles env dotDir homeDir rest rd.2
    | .ok data =>
      let wr := osWriteFile env dest data 0o644 rd.2
      match wr.1 with
      | some e => (some ("write " ++ dest ++ ": " ++ e), wr.2)
      | none => copyDotfiles env dotDir homeDir rest wr.2

/-- Go `ensureDotfiles`: copies each declared dotfile into the home directory. -/
def ensureDotfiles (env : Env) (files : List String) (h : Trace) : Option String × Trace :=
  if files.length = 0 then (none, h)
  else
    match env.getwd with
    | .error e => (some e, h)
    | .ok repoRoot =>
      let dotDir := filepathJoin repoRoot "dotfiles"
      match env.userHomeDir with
      | .error e => (some e, h)
      | .ok homeDir => copyDotfiles env dotDir homeDir files h

/-- Go `(*Config).LoadConfig`: reads a YAML file into the configuration. -/
def LoadConfig (env : Env) (path : String) (h : Trace) : Except String Config × Trace :=
  let rd := osReadFile env path h
  match rd.1 with
  | .error e => (.error e, rd.2)
  | .ok data => (env.unmarshal data, rd.2)

/-- Go `main`: the result is `none` when the run reaches its last line and the
message of `log.Fatal` or `log.Fatalf` when it aborts. -/
def main (env : Env) : Option String × Trace :=
  let s1 := installHomebrew env []
  match s1.1 with
  | false => (some "Homebrew setup failed; aborting", s1.2)
  | true =>
    let s2 := LoadConfig env "config.yaml" s1.2
    match s2.1 with
    | .error e => (some ("failed to load config: " ++ e), s2.2)
    | .ok cfg =>
      let s3 := ensureTaps env cfg.Brew.Taps s2.2
      match s3.1 with
      | some e => (some ("tap step failed: " ++ e), s3.2)
      | none =>
        let s4 := ensureFormulae env cfg.Brew.Formulae s3.2
        match s4.1 with
        | some e => (some ("formula installation failed: " ++ e), s4.2)
        | none =>
          let s5 := ensureCasks env cfg.Brew.Casks s4.2
          match s5.1 with
          | some e => (some ("cask installation failed: " ++ e), s5.2)
          | none =>
            let s6 := ensureDotfiles env cfg.Dotfiles s5.2
            match s6.1 with
            | some e => (some ("dotfile setup failed: " ++ e), s6.2)
            | none => (none, s6.2)

/-! ## Observations on traces -/

/-- Content and permission argument of the most recent successful write to `path`
in a trace, if any. -/
def lastWrite (path : String) : Trace → Option (String × Nat)
  | [] => none
  | Event.writeFile p data perm none :: rest =>
    match lastWrite path rest with
    | some r => some r
    | none => if p = path then some (data, perm) else none
  | _ :: rest => lastWrite path rest

/-- The event is a subprocess invocation of `brew`. -/
def Event.isBrew : Event → Bool
  | Event.exec ("brew" :: _) _ => true
  | _ => false

/-! ## Concrete environments used to evaluate the program -/

/-- The configuration with no taps, no categories and no dotfiles. -/
def emptyConfig : Config := ⟨⟨[], [], []⟩, []⟩

/-- An environment in which every external call succeeds, files are empty and the
configuration decodes to `emptyConfig`. -/
def envAllOk : Env where
  run := fun _ _ => ⟨none, ""⟩
  readFile := fun _ _ => .ok ""
  writeFile := fun _ _ _ _ => none
  getwd := .ok "/r"
  userHomeDir := .ok "/h"
  unmarshal := fun _ => .ok emptyConfig

/-- An environment in which every subprocess fails with output that carries no
marker, no file can be read and no file can be written. -/
def envAllFail : Env where
  run := fun _ _ => ⟨some "exit status 1", "Error: unrelated"⟩
  readFile := fun _ _ => .error "no such file"
  writeFile := fun _ _ _ _ => some "permission denied"
  getwd := .ok "/r"
  userHomeDir := .ok "/h"
  unmarshal := fun _ => .ok emptyConfig

/-- An environment in which every subprocess fails and reports that the application
is already installed. -/
def envCaskPresent : Env where
  run := fun _ _ => ⟨some "exit status 1", "Error: already installed"⟩
  readFile := fun _ _ => .error "no such file"
  writeFile := fun _ _ _ _ => some "permission denied"
  getwd := .ok "/r"
  userHomeDir := .ok "/h"
  unmarshal := fun _ => .ok emptyConfig

/-- An environment in which the only failing subprocess is `brew tap bad`. -/
def envTapFails : Env where
  run := fun _ argv =>
    if argv = tapArgv "bad" then ⟨some "exit status 1", ""⟩ else ⟨none, ""⟩
  readFile := fun _ _ => .ok ""
  writeFile := fun _ _ _ _ => none
  getwd := .ok "/r"
  userHomeDir := .ok "/h"
  unmarshal := fun _ => .ok emptyConfig

/-- An environment with fixed outcomes per command: every query fails, the install
of `broken` fails, every other command succeeds. -/
def envBrokenFormula : Env where
  run := fun _ argv =>
    if argv = formulaInstallArgv "broken" then ⟨some "exit status 1", ""⟩
    else if argv.take 2 = ["brew", "list"] then ⟨some "exit status 1", ""⟩
    else ⟨none, ""⟩
  readFile := fun _ _ => .ok ""
  writeFile := fun _ _ _ _ => none
  getwd := .ok "/r"
  userHomeDir := .ok "/h"
  unmarshal := fun _ => .ok emptyConfig

/-- Query outcome of `envBrokenFormula`: no formula is reported installed. -/
def brokenQuery : String → CmdResult :=
  fun _ => ⟨some "exit status 1", ""⟩

/-- Install outcome of `envBrokenFormula`: only `broken` fails to install. -/
def brokenInstall : String → CmdResult :=
  fun pkg => if pkg = "broken" then ⟨some "exit status 1", ""⟩ else ⟨none, ""⟩

/-- An environment in which the source `/r/dotfiles/missing` cannot be read, every
other file holds `data`, and every write succeeds. -/
def envMissingSource : Env where
  run := fun _ _ => ⟨none, ""⟩
  readFile := fun _ p =>
    if p = "/r/dotfiles/missing" then .error "no such file" else .ok "data"
  writeFile := fun _ _ _ _ => none
  getwd := .ok "/r"
  userHomeDir := .ok "/h"
  unmarshal := fun _ => .ok emptyConfig

/-- An environment in which every file holds `data` and the only write that fails is
the one to `/h/b`. -/
def envWriteFails : Env where
  run := fun _ _ => ⟨none, ""⟩
  readFile := fun _ _ => .ok "data"
  writeFile := fun _ p _ _ => if p = "/h/b" then some "permission denied" else none
  getwd := .ok "/r"
  userHomeDir := .ok "/h"
  unmarshal := fun _ => .ok emptyConfig

/-- An environment with working directory `/r` and home directory `/h` in which the
file `/r/h/f` holds `A`, every other file holds `B`, and every write succeeds. -/
def envTwoSources : Env where
  run := fun _ _ => ⟨none, ""⟩
  readFile := fun _ p => if p = "/r/h/f" then .ok "A" else .ok "B"
  writeFile := fun _ _ _ _ => none
  getwd := .ok "/r"
  userHomeDir := .ok "/h"
  unmarshal := fun _ => .ok emptyConfig

/-- An environment in which the commands whose last argument is `b` fail with
output that carries no marker, and every other command succeeds. -/
def envCaskBFails : Env where
  run := fun _ argv =>
    if argv.getLast? = some "b" then ⟨some "exit status 1", "Error: unrelated"⟩
    else ⟨none, ""⟩
  readFile := fun _ _ => .ok ""
  writeFile := fun _ _ _ _ => none
  getwd := .ok "/r"
  userHomeDir := .ok "/h"
  unmarshal := fun _ => .ok emptyConfig

/-- An environment in which the source `/r/dotfiles/missing` cannot be read, every
other file holds `data`, and the only write that fails is the one to `/h/b`. -/
def envMissingThenWriteFails : Env where
  run := fun _ _ => ⟨none, ""⟩
  readFile := fun _ p =>
    if p = "/r/dotfiles/missing" then .error "no such file" else .ok "data"
  writeFile := fun _ p _ _ => if p = "/h/b" then some "permission denied" else none
  getwd := .ok "/r"
  userHomeDir := .ok "/h"
  unmarshal := fun _ => .ok emptyConfig

/-! ## Basic lemmas -/

@[simp] theorem runCmd_fst (env : Env) (argv : List String) (h : Trace) :
    (runCmd env argv h).1 = env.run h argv := rfl

@[simp] theorem runCmd_snd (env : Env) (argv : List String) (h : Trace) :
    (runCmd env argv h).2 = h ++ [Event.exec argv (env.run h argv)] := rfl

@[simp] theorem osReadFile_fst (env : Env) (p : String) (h : Trace) :
    (osReadFile env p h).1 = env.readFile h p := rfl

@[simp] theorem osReadFile_snd (env : Env) (p : String) (h : Trace) :
    (osReadFile env p h).2 = h ++ [Event.readFile p (env.readFile h p)] := rfl

@[simp] theorem osWriteFile_fst (env : Env) (p d : String) (m : Nat) (h : Trace) :
    (osWriteFile env p d m h).1 = env.writeFile h p d m := rfl

@[simp] theorem osWriteFile_snd (env : Env) (p d : String) (m : Nat) (h : Trace) :
    (osWriteFile env p d m h).2 =
      h ++ [Event.writeFile p d m (env.writeFile h p d m)] := rfl

theorem containsChars_iff (s sub : List Char) :
    containsChars s sub = true ↔ sub <:+: s := by
  induction s with
  | nil => simp [containsChars]
  | cons c cs ih =>
    simp only [containsChars, Bool.or_eq_true, ih, List.infix_cons_iff]
    rw [List.isPrefixOf_iff_prefix]

/-- The model of `strings.Contains` holds exactly when the needle occurs as a
contiguous block of the haystack. -/
theorem stringsContains_iff (s sub : String) :
    stringsContains s sub = true ↔ sub.data <:+: s.data :=
  containsChars_iff s.data sub.data

/-! ## Taps -/

theorem ensureTaps_shape (env : Env) (taps : List String) (h : Trace) :
    ∃ rs : List CmdResult, rs.length ≤ taps.length ∧
      (ensureTaps env taps h).2 =
        h ++ List.zipWith (fun t r => Event.exec (tapArgv t) r) taps rs ∧
      ((ensureTaps env taps h).1 = none → rs.length = taps.length) := by
  induction taps generalizing h with
  | nil => exact ⟨[], by simp [ensureTaps]⟩
  | cons t rest ih =>
    simp only [ensureTaps, runCmd_fst, runCmd_snd]
    cases hr : (env.run h (tapArgv t)).err with
    | some e =>
      exact ⟨[env.run h (tapArgv t)], by simp, by simp, by simp⟩
    | none =>
      obtain ⟨rs, h1, h2, h3⟩ :=
        ih (h ++ [Event.exec (tapArgv t) (env.run h (tapArgv t))])
      refine ⟨env.run h (tapArgv t) :: rs, by simpa using h1, ?_, ?_⟩
      · simp [h2]
      · intro hn; simpa using h3 hn

theorem ensureTaps_append (env : Env) (pre post : List String) (h : Trace) :
    ensureTaps env (pre ++ post) h =
      match (ensureTaps env pre h).1 with
      | some e => (some e, (ensureTaps env pre h).2)
      | none => ensureTaps env post (ensureTaps env pre h).2 := by
  induction pre generalizing h with
  | nil => simp [ensureTaps]
  | cons t rest ih =>
    simp only [List.cons_append, ensureTaps, runCmd_fst, runCmd_snd]
    cases hr : (env.run h (tapArgv t)).err with
    | some e => simp
    | none => simpa using ih _

/-- C7.  `ensureTaps` runs `brew tap <tap>` for the taps in declared order, one
command per tap and nothing else, for an initial segment of the list (first
conjunct).  When the taps before `t` have all been added without error and the
command for `t` fails with error `e`, the result is the error `tap <t>: <e>` and the
trace ends with the failed command, whatever taps follow (second conjunct).  When no
tap command fails at the moment it is reached, the result is no error and the trace
holds one command for every tap (third conjunct). -/
theorem ensureTaps_fail_fast (env : Env) (taps : List String) (h : Trace) :
    (∃ rs : List CmdResult, rs.length ≤ taps.length ∧
        (ensureTaps env taps h).2 =
          h ++ List.zipWith (fun t r => Event.exec (tapArgv t) r) taps rs ∧
        ((ensureTaps env taps h).1 = none → rs.length = taps.length)) ∧
    (∀ pre t post h1 e, taps = pre ++ t :: post →
        ensureTaps env pre h = (none, h1) →
        (env.run h1 (tapArgv t)).err = some e →
        ensureTaps env taps h =
          (some ("tap " ++ t ++ ": " ++ e),
            h1 ++ [Event.exec (tapArgv t) (env.run h1 (tapArgv t))])) ∧
    ((∀ pre t post h1, taps = pre ++ t :: post →
        ensureTaps env pre h = (none, h1) →
        (env.run h1 (tapArgv t)).err = none) →
      (ensureTaps env taps h).1 = none ∧
      ∃ rs : List CmdResult, rs.length = taps.length ∧
        (ensureTaps env taps h).2 =
          h ++ List.zipWith (fun t r => Event.exec (tapArgv t) r) taps rs) := by
  refine ⟨ensureTaps_shape env taps h, ?_, ?_⟩
  · intro pre t post h1 e htaps hpre hfail
    subst htaps
    rw [ensureTaps_append, hpre]
    simp [ensureTaps, hfail]
  · intro hall
    have key : (ensureTaps env taps h).1 = none := by
      clear * - hall
      induction taps using List.reverseRecOn with
      | nil => simp [ensureTaps]
      | append_singleton pre t ih =>
        have hpre : (ensureTaps env pre h).1 = none := by
          apply ih
          intro p u q h1 hp hrun
          exact hall p u (q ++ [t]) h1 (by simp [hp]) hrun
        have hlast := hall pre t [] (ensureTaps env pre h).2 rfl
          (by rw [← hpre])
        rw [ensureTaps_append, hpre]
        simp [ensureTaps, hlast]
    refine ⟨key, ?_⟩
    obtain ⟨rs, _, h2, h3⟩ := ensureTaps_shape env taps h
    exact ⟨rs, h3 key, h2⟩

/-- Witness for C7: with taps `ok1`, `bad`, `ok2` and an environment in which only
`brew tap bad` fails, the run stops at `bad`. -/
theorem ensureTaps_fail_fast_witness :
    ensureTaps envTapFails ["ok1", "bad", "ok2"] [] =
      (some "tap bad: exit status 1",
        [Event.exec (tapArgv "ok1") ⟨none, ""⟩,
         Event.exec (tapArgv "bad") ⟨some "exit status 1", ""⟩]) :=
  (ensureTaps_fail_fast envTapFails ["ok1", "bad", "ok2"] []).2.1
    ["ok1"] "bad" ["ok2"] [Event.exec (tapArgv "ok1") ⟨none, ""⟩] "exit status 1"
    (by decide) (by decide) (by decide)

/-! ## Formulae and casks: one package -/

/-- C3.  When `brew list --formula <pkg>` succeeds, `installFormula` returns no
error and the query is the only thing it adds to the trace: `brew install <pkg>`
is not run. -/
theorem installFormula_already_installed (env : Env) (pkg : String) (h : Trace)
    (hq : (env.run h (formulaListArgv pkg)).err = none) :
    installFormula env pkg h =
      (none, h ++ [Event.exec (formulaListArgv pkg) (env.run h (formulaListArgv pkg))]) := by
  simp [installFormula, hq]

/-- Witness for C3: in an environment where every command succeeds, the query is
the only command. -/
theorem installFormula_already_installed_witness :
    (envAllOk.run [] (formulaListArgv "git")).err = none ∧
    installFormula envAllOk "git" [] =
      (none, [Event.exec (formulaListArgv "git") ⟨none, ""⟩]) :=
  ⟨by decide, installFormula_already_installed envAllOk "git" [] (by decide)⟩

/-- C1.  When `brew list --cask <pkg>` fails and `brew install --cask <pkg>` fails
with combined output containing `already an app at` or `already installed`,
`installCask` returns no error; the trace holds the query and the install. -/
theorem installCask_already_present (env : Env) (pkg : String) (h : Trace)
    (hq : (env.run h (caskListArgv pkg)).err ≠ none)
    (hi : (env.run (h ++ [Event.exec (caskListArgv pkg) (env.run h (caskListArgv pkg))])
            (caskInstallArgv pkg)).err ≠ none)
    (hm : "already an app at".data <:+:
            (env.run (h ++ [Event.exec (caskListArgv pkg) (env.run h (caskListArgv pkg))])
              (caskInstallArgv pkg)).output.data ∨
          "already installed".data <:+:
            (env.run (h ++ [Event.exec (caskListArgv pkg) (env.run h (caskListArgv pkg))])
              (caskInstallArgv pkg)).output.data) :
    installCask env pkg h =
      (none, h ++ [Event.exec (caskListArgv pkg) (env.run h (caskListArgv pkg)),
        Event.exec (caskInstallArgv pkg)
          (env.run (h ++ [Event.exec (caskListArgv pkg) (env.run h (caskListArgv pkg))])
            (caskInstallArgv pkg))]) := by
  obtain ⟨e, he⟩ := Option.ne_none_iff_exists'.mp hq
  obtain ⟨e2, he2⟩ := Option.ne_none_iff_exists'.mp hi
  have hm2 : (stringsContains
      (env.run (h ++ [Event.exec (caskListArgv pkg) (env.run h (caskListArgv pkg))])
        (caskInstallArgv pkg)).output "already an app at" ||
      stringsContains
      (env.run (h ++ [Event.exec (caskListArgv pkg) (env.run h (caskListArgv pkg))])
        (caskInstallArgv pkg)).output "already installed") = true := by
    rw [Bool.or_eq_true, stringsContains_iff, stringsContains_iff]
    exact hm
  simp [installCask, he, he2, hm2]

/-- Witness for C1: the install fails with output `Error: already installed`. -/
theorem installCask_already_present_witness :
    installCask envCaskPresent "iterm2" [] =
      (none, [Event.exec (caskListArgv "iterm2") ⟨some "exit status 1", "Error: already installed"⟩,
        Event.exec (caskInstallArgv "iterm2")
          ⟨some "exit status 1", "Error: already installed"⟩]) :=
  installCask_already_present envCaskPresent "iterm2" [] (by decide) (by decide)
    (Or.inr ⟨"Error: ".data, [], rfl⟩)

/-! ## Formulae and casks: the loops -/

theorem rangePkgs_append (f : String → Trace → Option String × Trace)
    (pre post : List String) (h : Trace) :
    rangePkgs f (pre ++ post) h =
      match (rangePkgs f pre h).1 with
      | some e => (some e, (rangePkgs f pre h).2)
      | none => rangePkgs f post (rangePkgs f pre h).2 := by
  induction pre generalizing h with
  | nil => simp [rangePkgs]
  | cons t rest ih =>
    simp only [List.cons_append, rangePkgs]
    cases hr : (f t h).1 with
    | some e => simp
    | none => simpa using ih _

theorem rangeCategories_append (f : String → Trace → Option String × Trace)
    (pre post : List (String × List String)) (h : Trace) :
    rangeCategories f (pre ++ post) h =
      match (rangeCategories f pre h).1 with
      | some e => (some e, (rangeCategories f pre h).2)
      | none => rangeCategories f post (rangeCategories f pre h).2 := by
  induction pre generalizing h with
  | nil => simp [rangeCategories]
  | cons t rest ih =>
    simp only [List.cons_append, rangeCategories]
    cases hr : (rangePkgs f t.2 h).1 with
    | some e => simp
    | none => simpa using ih _

theorem rangeCategories_singleton (f : String → Trace → Option String × Trace)
    (c : String × List String) (h : Trace) :
    rangeCategories f [c] h = rangePkgs f c.2 h := by
  simp only [rangeCategories]
  cases hr : (rangePkgs f c.2 h).1 with
  | some e => simp [← hr]
  | none => simp [← hr]

/-- C2.  Suppose the cask `p` of category `cat` is reached (every package before it,
in the categories visited earlier and earlier in its own category, went through
without error, leaving the trace `h1`), its query `brew list --cask` fails and its
install `brew install --cask` fails with combined output containing neither
`already an app at` nor `already installed`.  Then `ensureCasks` returns the error
of that install, and the trace ends with that install: nothing is run for the rest of
the category (`postPk`) nor for the categories not yet visited (`postCats`). -/
theorem ensureCasks_unrelated_failure_aborts (env : Env)
    (preCats postCats : List (String × List String)) (cat : String)
    (prePk postPk : List String) (p : String) (h h1 : Trace)
    (hreach : ensureCasks env (preCats ++ [(cat, prePk)]) h = (none, h1))
    (hq : (env.run h1 (caskListArgv p)).err ≠ none)
    (e : String)
    (hi : (env.run (h1 ++ [Event.exec (caskListArgv p) (env.run h1 (caskListArgv p))])
            (caskInstallArgv p)).err = some e)
    (hm1 : ¬ "already an app at".data <:+:
            (env.run (h1 ++ [Event.exec (caskListArgv p) (env.run h1 (caskListArgv p))])
              (caskInstallArgv p)).output.data)
    (hm2 : ¬ "already installed".data <:+:
            (env.run (h1 ++ [Event.exec (caskListArgv p) (env.run h1 (caskListArgv p))])
              (caskInstallArgv p)).output.data) :
    ensureCasks env (preCats ++ (cat, prePk ++ p :: postPk) :: postCats) h =
      (some ("install cask " ++ p ++ " failed: " ++ e ++ "\n" ++
          (env.run (h1 ++ [Event.exec (caskListArgv p) (env.run h1 (caskListArgv p))])
            (caskInstallArgv p)).output),
        h1 ++ [Event.exec (caskListArgv p) (env.run h1 (caskListArgv p)),
          Event.exec (caskInstallArgv p)
            (env.run (h1 ++ [Event.exec (caskListArgv p) (env.run h1 (caskListArgv p))])
              (caskInstallArgv p))]) := by
  obtain ⟨eq, heq⟩ := Option.ne_none_iff_exists'.mp hq
  have hc1 : stringsContains
      (env.run (h1 ++ [Event.exec (caskListArgv p) (env.run h1 (caskListArgv p))])
        (caskInstallArgv p)).output "already an app at" = false := by
    rw [← Bool.not_eq_true, stringsContains_iff]; exact hm1
  have hc2 : stringsContains
      (env.run (h1 ++ [Event.exec (caskListArgv p) (env.run h1 (caskListArgv p))])
        (caskInstallArgv p)).output "already installed" = false := by
    rw [← Bool.not_eq_true, stringsContains_iff]; exact hm2
  have hcask : installCask env p h1 =
      (some ("install cask " ++ p ++ " failed: " ++ e ++ "\n" ++
          (env.run (h1 ++ [Event.exec (caskListArgv p) (env.run h1 (caskListArgv p))])
            (caskInstallArgv p)).output),
        h1 ++ [Event.exec (caskListArgv p) (env.run h1 (caskListArgv p)),
          Event.exec (caskInstallArgv p)
            (env.run (h1 ++ [Event.exec (caskListArgv p) (env.run h1 (caskListArgv p))])
              (caskInstallArgv p))]) := by
    simp [installCask, heq, hi, hc1, hc2]
  unfold ensureCasks at hreach ⊢
  rw [rangeCategories_append] at hreach ⊢
  cases hpre : (rangeCategories (installCask env) preCats h).1 with
  | some e0 =>
    rw [hpre] at hreach
    simp at hreach
  | none =>
    rw [hpre] at hreach
    simp only [rangeCategories_singleton] at hreach
    simp only [rangeCategories]
    rw [rangePkgs_append, hreach]
    simp [rangePkgs, hcask]

/-- Witness for C2: three categories; the casks `z` and `a` are reported installed,
the cask `b` fails to install with unrelated output, and nothing is run for `c` nor
for the category `more`. -/
theorem ensureCasks_unrelated_failure_aborts_witness :
    ensureCasks envCaskBFails
        ([("first", ["z"])] ++ ("apps", ["a"] ++ "b" :: ["c"]) :: [("more", ["d"])]) [] =
      (some "install cask b failed: exit status 1\nError: unrelated",
        [Event.exec (caskListArgv "z") ⟨none, ""⟩,
         Event.exec (caskListArgv "a") ⟨none, ""⟩] ++
        [Event.exec (caskListArgv "b") ⟨some "exit status 1", "Error: unrelated"⟩,
         Event.exec (caskInstallArgv "b") ⟨some "exit status 1", "Error: unrelated"⟩]) :=
  ensureCasks_unrelated_failure_aborts envCaskBFails [("first", ["z"])] [("more", ["d"])]
    "apps" ["a"] ["c"] "b" []
    [Event.exec (caskListArgv "z") ⟨none, ""⟩, Event.exec (caskListArgv "a") ⟨none, ""⟩]
    (by decide) (by decide) "exit status 1" (by decide) (by decide) (by decide)

/-! ## Formulae with fixed outcomes per package -/

theorem installFormula_fixed (env : Env) (q i : String → CmdResult)
    (hq : ∀ t pkg, env.run t (formulaListArgv pkg) = q pkg)
    (hi : ∀ t pkg, env.run t (formulaInstallArgv pkg) = i pkg) (p : String) (h : Trace) :
    ((installFormula env p h).1 = none ↔ ((q p).err = none ∨ (i p).err = none)) ∧
    (h <+: (installFormula env p h).2) ∧
    (∀ msg, (installFormula env p h).1 = some msg →
      ∃ e, (q p).err ≠ none ∧ (i p).err = some e ∧ msg = "install " ++ p ++ ": " ++ e ∧
        ∃ evs, (installFormula env p h).2 =
          h ++ evs ++ [Event.exec (formulaInstallArgv p) (i p)]) := by
  simp only [installFormula, runCmd_fst, runCmd_snd, hq, hi]
  cases h1 : (q p).err with
  | none => simp
  | some e1 =>
    cases h2 : (i p).err with
    | none => simp
    | some e2 =>
      refine ⟨by simp, by simp, ?_⟩
      intro msg hmsg
      refine ⟨e2, by simp, rfl, by simpa using hmsg.symm, [Event.exec (formulaListArgv p) (q p)], by simp⟩

theorem rangePkgs_formula_fixed (env : Env) (q i : String → CmdResult)
    (hq : ∀ t pkg, env.run t (formulaListArgv pkg) = q pkg)
    (hi : ∀ t pkg, env.run t (formulaInstallArgv pkg) = i pkg)
    (pkgs : List String) (h : Trace) :
    ((rangePkgs (installFormula env) pkgs h).1 = none ↔
        ∀ p ∈ pkgs, (q p).err = none ∨ (i p).err = none) ∧
    (h <+: (rangePkgs (installFormula env) pkgs h).2) ∧
    (∀ msg, (rangePkgs (installFormula env) pkgs h).1 = some msg →
      ∃ p ∈ pkgs, ∃ e, (q p).err ≠ none ∧ (i p).err = some e ∧
        msg = "install " ++ p ++ ": " ++ e ∧
        ∃ evs, (rangePkgs (installFormula env) pkgs h).2 =
          h ++ evs ++ [Event.exec (formulaInstallArgv p) (i p)]) := by
  induction pkgs generalizing h with
  | nil => simp [rangePkgs]
  | cons p rest ih =>
    obtain ⟨a1, a2, a3⟩ := installFormula_fixed env q i hq hi p h
    simp only [rangePkgs]
    cases hr : (installFormula env p h).1 with
    | some m =>
      have hne : ¬ ((q p).err = none ∨ (i p).err = none) := by
        rw [← a1, hr]; simp
      refine ⟨by simp [hne], a2, ?_⟩
      intro msg hmsg
      simp only [Option.some.injEq] at hmsg
      subst hmsg
      obtain ⟨e, b1, b2, b3, b4⟩ := a3 m hr
      exact ⟨p, by simp, e, b1, b2, b3, b4⟩
    | none =>
      obtain ⟨c1, c2, c3⟩ := ih (installFormula env p h).2
      have hok : (q p).err = none ∨ (i p).err = none := a1.mp hr
      refine ⟨by simp [c1, hok], a2.trans c2, ?_⟩
      intro msg hmsg
      obtain ⟨p2, hp2, e, b1, b2, b3, evs, b4⟩ := c3 msg hmsg
      obtain ⟨pre, hpre⟩ := a2
      refine ⟨p2, by simp [hp2], e, b1, b2, b3, pre ++ evs, ?_⟩
      rw [b4, ← hpre]; simp

theorem ensureFormulae_fixed (env : Env) (q i : String → CmdResult)
    (hq : ∀ t pkg, env.run t (formulaListArgv pkg) = q pkg)
    (hi : ∀ t pkg, env.run t (formulaInstallArgv pkg) = i pkg)
    (cats : List (String × List String)) (h : Trace) :
    ((ensureFormulae env cats h).1 = none ↔
        ∀ c ∈ cats, ∀ p ∈ c.2, (q p).err = none ∨ (i p).err = none) ∧
    (h <+: (ensureFormulae env cats h).2) ∧
    (∀ msg, (ensureFormulae env cats h).1 = some msg →
      ∃ c ∈ cats, ∃ p ∈ c.2, ∃ e, (q p).err ≠ none ∧ (i p).err = some e ∧
        msg = "install " ++ p ++ ": " ++ e ∧
        ∃ evs, (ensureFormulae env cats h).2 =
          h ++ evs ++ [Event.exec (formulaInstallArgv p) (i p)]) := by
  unfold ensureFormulae
  induction cats generalizing h with
  | nil => simp [rangeCategories]
  | cons c rest ih =>
    obtain ⟨a1, a2, a3⟩ := rangePkgs_formula_fixed env q i hq hi c.2 h
    simp only [rangeCategories]
    cases hr : (rangePkgs (installFormula env) c.2 h).1 with
    | some m =>
      have hne : ¬ (∀ p ∈ c.2, (q p).err = none ∨ (i p).err = none) := by
        rw [← a1, hr]; simp
      refine ⟨?_, a2, ?_⟩
      · simp only [List.mem_cons, forall_eq_or_imp]
        constructor
        · intro hh; simp at hh
        · intro hh; exact absurd hh.1 hne
      · intro msg hmsg
        simp only [Option.some.injEq] at hmsg
        subst hmsg
        obtain ⟨p, hp, e, b1, b2, b3, b4⟩ := a3 m hr
        exact ⟨c, by simp, p, hp, e, b1, b2, b3, b4⟩
    | none =>
      obtain ⟨c1, c2, c3⟩ := ih (rangePkgs (installFormula env) c.2 h).2
      have hok := a1.mp hr
      refine ⟨?_, a2.trans c2, ?_⟩
      · simp only [List.mem_cons, forall_eq_or_imp]
        rw [c1]
        exact ⟨fun hh => ⟨hok, hh⟩, fun hh => hh.2⟩
      · intro msg hmsg
        obtain ⟨c0, hc0, p2, hp2, e, b1, b2, b3, evs, b4⟩ := c3 msg hmsg
        obtain ⟨pre, hpre⟩ := a2
        refine ⟨c0, by simp [hc0], p2, hp2, e, b1, b2, b3, pre ++ evs, ?_⟩
        rw [b4, ← hpre]; simp

/-- C10.  Let the outcome of `brew list --formula <pkg>` be `q pkg` and the outcome
of `brew install <pkg>` be `i pkg`, whatever happened before.  For every category
map `cats` and every order `order` in which its entries are visited,
`ensureFormulae` returns no error exactly when every declared package is reported
installed or installs successfully; and when it returns an error, the error is
`install <p>: <e>` for a declared package `p` whose query failed and whose install
failed with `e`, and that install is the last event of the trace. -/
theorem ensureFormulae_any_order (env : Env) (q i : String → CmdResult)
    (hq : ∀ t pkg, env.run t (formulaListArgv pkg) = q pkg)
    (hi : ∀ t pkg, env.run t (formulaInstallArgv pkg) = i pkg)
    (cats order : List (String × List String)) (hperm : order.Perm cats) (h : Trace) :
    ((ensureFormulae env order h).1 = none ↔
        ∀ c ∈ cats, ∀ p ∈ c.2, (q p).err = none ∨ (i p).err = none) ∧
    (∀ msg, (ensureFormulae env order h).1 = some msg →
      ∃ c ∈ cats, ∃ p ∈ c.2, ∃ e, (q p).err ≠ none ∧ (i p).err = some e ∧
        msg = "install " ++ p ++ ": " ++ e ∧
        ∃ evs, (ensureFormulae env order h).2 =
          h ++ evs ++ [Event.exec (formulaInstallArgv p) (i p)]) := by
  obtain ⟨a1, _, a3⟩ := ensureFormulae_fixed env q i hq hi order h
  constructor
  · rw [a1]
    exact ⟨fun hh c hc => hh c (hperm.mem_iff.mpr hc), fun hh c hc => hh c (hperm.mem_iff.mp hc)⟩
  · intro msg hmsg
    obtain ⟨c, hc, rest⟩ := a3 msg hmsg
    exact ⟨c, hperm.mem_iff.mp hc, rest⟩

/-- Witness for C10: the map has the categories `cli` and `dev`, visited here in the
order `dev`, `cli`; the install of `broken` fails, so the result is an error. -/
theorem ensureFormulae_any_order_witness :
    ((ensureFormulae envBrokenFormula
        [("dev", ["go"]), ("cli", ["git", "broken", "jq"])] []).1 = none ↔
      ∀ c ∈ [("cli", ["git", "broken", "jq"]), ("dev", ["go"])], ∀ p ∈ c.2,
        (brokenQuery p).err = none ∨ (brokenInstall p).err = none) ∧
    (∀ msg, (ensureFormulae envBrokenFormula
        [("dev", ["go"]), ("cli", ["git", "broken", "jq"])] []).1 = some msg →
      ∃ c ∈ [("cli", ["git", "broken", "jq"]), ("dev", ["go"])], ∃ p ∈ c.2, ∃ e,
        (brokenQuery p).err ≠ none ∧ (brokenInstall p).err = some e ∧
        msg = "install " ++ p ++ ": " ++ e ∧
        ∃ evs, (ensureFormulae envBrokenFormula
            [("dev", ["go"]), ("cli", ["git", "broken", "jq"])] []).2 =
          [] ++ evs ++ [Event.exec (formulaInstallArgv p) (brokenInstall p)]) :=
  ensureFormulae_any_order envBrokenFormula brokenQuery brokenInstall
    (by intro t pkg; simp [envBrokenFormula, brokenQuery, formulaListArgv, formulaInstallArgv])
    (by
      intro t pkg
      by_cases hp : pkg = "broken"
      · simp [envBrokenFormula, brokenInstall, formulaInstallArgv, hp]
      · simp [envBrokenFormula, brokenInstall, formulaInstallArgv, hp])
    [("cli", ["git", "broken", "jq"]), ("dev", ["go"])]
    [("dev", ["go"]), ("cli", ["git", "broken", "jq"])]
    (List.Perm.swap _ _ []) []

/-! ## Dotfiles -/

theorem copyDotfiles_append (env : Env) (dotDir homeDir : String)
    (pre post : List String) (h : Trace) :
    copyDotfiles env dotDir homeDir (pre ++ post) h =
      match (copyDotfiles env dotDir homeDir pre h).1 with
      | some e => (some e, (copyDotfiles env dotDir homeDir pre h).2)
      | none => copyDotfiles env dotDir homeDir post (copyDotfiles env dotDir homeDir pre h).2 := by
  induction pre generalizing h with
  | nil => simp [copyDotfiles]
  | cons n rest ih =>
    simp only [List.cons_append, copyDotfiles, osReadFile_fst, osReadFile_snd,
      osWriteFile_fst, osWriteFile_snd]
    cases hr : env.readFile h (filepathJoin dotDir n) with
    | error e => simpa using ih _
    | ok d =>
      simp only []
      cases hw : env.writeFile (h ++ [Event.readFile (filepathJoin dotDir n) (Except.ok d)])
          (filepathJoin homeDir n) d 0o644 with
      | some e => simp
      | none => simpa using ih _

theorem ensureDotfiles_eq_copy (env : Env) (repoRoot homeDir : String)
    (hwd : env.getwd = .ok repoRoot) (hhome : env.userHomeDir = .ok homeDir)
    (files : List String) (h : Trace) :
    ensureDotfiles env files h =
      copyDotfiles env (filepathJoin repoRoot "dotfiles") homeDir files h := by
  cases files with
  | nil => simp [ensureDotfiles, copyDotfiles]
  | cons n rest => simp [ensureDotfiles, hwd, hhome]

/-- C5.  Let the working directory and the home directory resolve.  Suppose the
dotfiles before position `i` (the list `pre`) went through without error, leaving
the trace `h1`, the source of the name at position `i` is read successfully and the
write of its destination fails with `e`.  Then `ensureDotfiles` returns the error
`write <dest>: <e>`, and the trace ends with that write: no later dotfile (`post`)
is read or written. -/
theorem ensureDotfiles_write_failure_aborts (env : Env) (repoRoot homeDir : String)
    (pre post : List String) (name : String) (h h1 : Trace) (data e : String)
    (hwd : env.getwd = .ok repoRoot) (hhome : env.userHomeDir = .ok homeDir)
    (hpre : ensureDotfiles env pre h = (none, h1))
    (hread : env.readFile h1 (filepathJoin (filepathJoin repoRoot "dotfiles") name) = .ok data)
    (hwrite : env.writeFile
        (h1 ++ [Event.readFile (filepathJoin (filepathJoin repoRoot "dotfiles") name) (.ok data)])
        (filepathJoin homeDir name) data 0o644 = some e) :
    ensureDotfiles env (pre ++ name :: post) h =
      (some ("write " ++ filepathJoin homeDir name ++ ": " ++ e),
        h1 ++ [Event.readFile (filepathJoin (filepathJoin repoRoot "dotfiles") name) (.ok data),
          Event.writeFile (filepathJoin homeDir name) data 0o644 (some e)]) := by
  rw [ensureDotfiles_eq_copy env repoRoot homeDir hwd hhome] at hpre ⊢
  rw [copyDotfiles_append, hpre]
  simp [copyDotfiles, hread, hwrite]

/-- Witness for C5: the write of the second of three dotfiles fails. -/
theorem ensureDotfiles_write_failure_aborts_witness :
    ensureDotfiles envWriteFails ["a", "b", "c"] [] =
      (some "write /h/b: permission denied",
        [Event.readFile "/r/dotfiles/a" (.ok "data"),
         Event.writeFile "/h/a" "data" 0o644 none,
         Event.readFile "/r/dotfiles/b" (.ok "data"),
         Event.writeFile "/h/b" "data" 0o644 (some "permission denied")]) :=
  ensureDotfiles_write_failure_aborts envWriteFails "/r" "/h" ["a"] ["c"] "b" []
    [Event.readFile "/r/dotfiles/a" (.ok "data"), Event.writeFile "/h/a" "data" 0o644 none]
    "data" "permission denied" rfl rfl (by decide) (by decide) (by decide)

theorem copyDotfiles_extends (env : Env) (dotDir homeDir : String)
    (files : List String) (h : Trace) :
    ∃ evs, (copyDotfiles env dotDir homeDir files h).2 = h ++ evs ∧
      (∀ ev ∈ evs, ev.isBrew = false) ∧
      (∀ p r, Event.readFile p r ∈ evs → ∃ m ∈ files, p = filepathJoin dotDir m) ∧
      ∀ p d perm err, Event.writeFile p d perm err ∈ evs →
        perm = 0o644 ∧ ∃ m ∈ files, p = filepathJoin homeDir m := by
  induction files generalizing h with
  | nil => exact ⟨[], by simp [copyDotfiles]⟩
  | cons n rest ih =>
    simp only [copyDotfiles, osReadFile_fst, osReadFile_snd, osWriteFile_fst, osWriteFile_snd]
    cases hr : env.readFile h (filepathJoin dotDir n) with
    | error e =>
      obtain ⟨evs, h1, h2, h3, h4⟩ := ih (h ++ [Event.readFile (filepathJoin dotDir n) (.error e)])
      refine ⟨Event.readFile (filepathJoin dotDir n) (.error e) :: evs, by simp [h1], ?_, ?_, ?_⟩
      · intro ev hev
        rcases List.mem_cons.mp hev with rfl | hev
        · rfl
        · exact h2 ev hev
      · intro p r hp
        rcases List.mem_cons.mp hp with heq | hp
        · exact ⟨n, by simp, by injection heq⟩
        · obtain ⟨m, hm, hpm⟩ := h3 p r hp
          exact ⟨m, by simp [hm], hpm⟩
      · intro p d perm err hp
        rcases List.mem_cons.mp hp with heq | hp
        · cases heq
        · obtain ⟨hperm, m, hm, hpm⟩ := h4 p d perm err hp
          exact ⟨hperm, m, by simp [hm], hpm⟩
    | ok data =>
      simp only []
      cases hw : env.writeFile (h ++ [Event.readFile (filepathJoin dotDir n) (Except.ok data)])
          (filepathJoin homeDir n) data 0o644 with
      | some e =>
        refine ⟨[Event.readFile (filepathJoin dotDir n) (.ok data),
          Event.writeFile (filepathJoin homeDir n) data 0o644 (some e)], by simp, ?_, ?_, ?_⟩
        · intro ev hev
          simp only [List.mem_cons, List.mem_singleton, List.not_mem_nil, or_false] at hev
          rcases hev with rfl | rfl <;> rfl
        · intro p r hp
          simp only [List.mem_cons, List.mem_singleton, List.not_mem_nil, or_false] at hp
          rcases hp with heq | heq
          · exact ⟨n, by simp, by injection heq⟩
          · cases heq
        · intro p d perm err hp
          simp only [List.mem_cons, List.mem_singleton, List.not_mem_nil, or_false] at hp
          rcases hp with heq | heq
          · cases heq
          · injection heq with e1 e2 e3 e4
            exact ⟨e3, n, by simp, e1⟩
      | none =>
        obtain ⟨evs, h1, h2, h3, h4⟩ := ih (h ++ [Event.readFile (filepathJoin dotDir n) (.ok data),
          Event.writeFile (filepathJoin homeDir n) data 0o644 none])
        refine ⟨Event.readFile (filepathJoin dotDir n) (.ok data) ::
          Event.writeFile (filepathJoin homeDir n) data 0o644 none :: evs, ?_, ?_, ?_, ?_⟩
        · simpa using h1
        · intro ev hev
          simp only [List.mem_cons] at hev
          rcases hev with rfl | rfl | hev
          · rfl
          · rfl
          · exact h2 ev hev
        · intro p r hp
          simp only [List.mem_cons] at hp
          rcases hp with heq | heq | hp
          · exact ⟨n, by simp, by injection heq⟩
          · cases heq
          · obtain ⟨m, hm, hpm⟩ := h3 p r hp
            exact ⟨m, by simp [hm], hpm⟩
        · intro p d perm err hp
          simp only [List.mem_cons] at hp
          rcases hp with heq | heq | hp
          · cases heq
          · injection heq with e1 e2 e3 e4
            exact ⟨e3, n, by simp, e1⟩
          · obtain ⟨hperm, m, hm, hpm⟩ := h4 p d perm err hp
            exact ⟨hperm, m, by simp [hm], hpm⟩

theorem copyDotfiles_mono (env : Env) (dotDir homeDir : String)
    (files : List String) (h : Trace) :
    h <+: (copyDotfiles env dotDir homeDir files h).2 := by
  obtain ⟨evs, h1, _⟩ := copyDotfiles_extends env dotDir homeDir files h
  exact ⟨evs, h1.symm⟩

theorem copyDotfiles_writes_ok (env : Env) (dotDir homeDir : String)
    (files : List String) (h : Trace)
    (hw : ∀ t m d, m ∈ files → env.writeFile t (filepathJoin homeDir m) d 0o644 = none) :
    (copyDotfiles env dotDir homeDir files h).1 = none := by
  induction files generalizing h with
  | nil => simp [copyDotfiles]
  | cons n rest ih =>
    have hrest : ∀ t m d, m ∈ rest → env.writeFile t (filepathJoin homeDir m) d 0o644 = none :=
      fun t m d hm => hw t m d (by simp [hm])
    simp only [copyDotfiles, osReadFile_fst, osReadFile_snd, osWriteFile_fst, osWriteFile_snd]
    cases hr : env.readFile h (filepathJoin dotDir n) with
    | error e => exact ih _ hrest
    | ok data =>
      simp only [hw _ n data (by simp)]
      exact ih _ hrest

/-- When every write succeeds, each name is reached, its source is read at its turn
and, if the read succeeds, its destination is written with the bytes read. -/
theorem copyDotfiles_each_processed (env : Env) (dotDir homeDir : String)
    (pre post : List String) (m : String) (h : Trace)
    (hw : ∀ t x d, x ∈ pre ++ m :: post →
      env.writeFile t (filepathJoin homeDir x) d 0o644 = none) :
    ∃ h2, copyDotfiles env dotDir homeDir pre h = (none, h2) ∧
      ((h2 ++ [Event.readFile (filepathJoin dotDir m) (env.readFile h2 (filepathJoin dotDir m))])
        <+: (copyDotfiles env dotDir homeDir (pre ++ m :: post) h).2) ∧
      ∀ d, env.readFile h2 (filepathJoin dotDir m) = .ok d →
        ∃ evs, (∀ p x perm err, Event.writeFile p x perm err ∈ evs →
            perm = 0o644 ∧ ∃ y ∈ post, p = filepathJoin homeDir y) ∧
          (copyDotfiles env dotDir homeDir (pre ++ m :: post) h).2 =
            h2 ++ [Event.readFile (filepathJoin dotDir m) (.ok d),
              Event.writeFile (filepathJoin homeDir m) d 0o644 none] ++ evs := by
  have hpre : (copyDotfiles env dotDir homeDir pre h).1 = none :=
    copyDotfiles_writes_ok env dotDir homeDir pre h (fun t x d hx => hw t x d (by simp [hx]))
  refine ⟨(copyDotfiles env dotDir homeDir pre h).2, by rw [← hpre], ?_, ?_⟩
  · rw [copyDotfiles_append, hpre]
    simp only [copyDotfiles, osReadFile_fst, osReadFile_snd, osWriteFile_fst, osWriteFile_snd]
    cases hr : env.readFile (copyDotfiles env dotDir homeDir pre h).2 (filepathJoin dotDir m) with
    | error e => exact copyDotfiles_mono _ _ _ _ _
    | ok data =>
      simp only [hw _ m data (by simp)]
      refine List.IsPrefix.trans ?_ (copyDotfiles_mono _ _ _ _ _)
      exact ⟨[Event.writeFile (filepathJoin homeDir m) data 0o644 none], by simp⟩
  · intro d hd
    rw [copyDotfiles_append, hpre]
    simp only [copyDotfiles, osReadFile_fst, osReadFile_snd, osWriteFile_fst, osWriteFile_snd, hd,
      hw _ m d (by simp)]
    obtain ⟨evs, h1, _, _, h4⟩ := copyDotfiles_extends env dotDir homeDir post
      ((copyDotfiles env dotDir homeDir pre h).2 ++
        [Event.readFile (filepathJoin dotDir m) (Except.ok d)] ++
        [Event.writeFile (filepathJoin homeDir m) d 0o644 none])
    refine ⟨evs, h4, ?_⟩
    rw [h1]; simp

/-- A name that is reached has its source read and, if the read succeeds, its
destination written with the bytes read. -/
theorem copyDotfiles_reached (env : Env) (dotDir homeDir : String)
    (pre post : List String) (m : String) (h h2 : Trace)
    (hpre : copyDotfiles env dotDir homeDir pre h = (none, h2)) :
    ((h2 ++ [Event.readFile (filepathJoin dotDir m) (env.readFile h2 (filepathJoin dotDir m))])
      <+: (copyDotfiles env dotDir homeDir (pre ++ m :: post) h).2) ∧
    ∀ d, env.readFile h2 (filepathJoin dotDir m) = .ok d →
      (h2 ++ [Event.readFile (filepathJoin dotDir m) (.ok d),
          Event.writeFile (filepathJoin homeDir m) d 0o644
            (env.writeFile (h2 ++ [Event.readFile (filepathJoin dotDir m) (.ok d)])
              (filepathJoin homeDir m) d 0o644)])
        <+: (copyDotfiles env dotDir homeDir (pre ++ m :: post) h).2 := by
  rw [copyDotfiles_append, hpre]
  simp only [copyDotfiles, osReadFile_fst, osReadFile_snd, osWriteFile_fst, osWriteFile_snd]
  cases hr : env.readFile h2 (filepathJoin dotDir m) with
  | error e =>
    refine ⟨copyDotfiles_mono _ _ _ _ _, ?_⟩
    intro d hd
    cases hd
  | ok data =>
    simp only []
    have key : (h2 ++ [Event.readFile (filepathJoin dotDir m) (.ok data),
          Event.writeFile (filepathJoin homeDir m) data 0o644
            (env.writeFile (h2 ++ [Event.readFile (filepathJoin dotDir m) (.ok data)])
              (filepathJoin homeDir m) data 0o644)])
        <+: (match env.writeFile (h2 ++ [Event.readFile (filepathJoin dotDir m) (.ok data)])
              (filepathJoin homeDir m) data 0o644 with
            | some e =>
              (some ("write " ++ filepathJoin homeDir m ++ ": " ++ e),
                h2 ++ [Event.readFile (filepathJoin dotDir m) (Except.ok data)] ++
                  [Event.writeFile (filepathJoin homeDir m) data 0o644
                    (env.writeFile (h2 ++ [Event.readFile (filepathJoin dotDir m) (.ok data)])
                      (filepathJoin homeDir m) data 0o644)])
            | none =>
              copyDotfiles env dotDir homeDir post
                (h2 ++ [Event.readFile (filepathJoin dotDir m) (Except.ok data)] ++
                  [Event.writeFile (filepathJoin homeDir m) data 0o644
                    (env.writeFile (h2 ++ [Event.readFile (filepathJoin dotDir m) (.ok data)])
                      (filepathJoin homeDir m) data 0o644)])).2 := by
      cases hw : env.writeFile (h2 ++ [Event.readFile (filepathJoin dotDir m) (.ok data)])
          (filepathJoin homeDir m) data 0o644 with
      | some e => exact ⟨[], by simp⟩
      | none =>
        refine List.IsPrefix.trans ?_ (copyDotfiles_mono _ _ _ _ _)
        exact ⟨[], by simp⟩
    refine ⟨?_, ?_⟩
    · refine List.IsPrefix.trans ?_ key
      exact ⟨[Event.writeFile (filepathJoin homeDir m) data 0o644
            (env.writeFile (h2 ++ [Event.readFile (filepathJoin dotDir m) (.ok data)])
              (filepathJoin homeDir m) data 0o644)], by simp⟩
    · intro d hd
      cases hd
      exact key

/-- C4, as amended.  Let the working directory and the home directory resolve, let
the dotfiles before `name` (the list `pre`) go through without error, leaving the
trace `h1`, and let the read of the source of `name` fail.  Then the run on the whole
list is the run on the later names `post` continued from `h1` extended by the failed
read alone: the unreadable name causes no error and no write (first conjunct).  Every
later name `m` that the loop reaches, no write before it having failed (with trace
`h2`), has its source read and, when that read succeeds, its destination in the home
directory written with the bytes read (second conjunct).  If every write for a later
name succeeds, the overall result is no error and every later name is reached (third
conjunct). -/
theorem ensureDotfiles_unreadable_skipped (env : Env) (repoRoot homeDir : String)
    (pre post : List String) (name : String) (h h1 : Trace) (e : String)
    (hwd : env.getwd = .ok repoRoot) (hhome : env.userHomeDir = .ok homeDir)
    (hpre : ensureDotfiles env pre h = (none, h1))
    (hread : env.readFile h1 (filepathJoin (filepathJoin repoRoot "dotfiles") name) = .error e) :
    ensureDotfiles env (pre ++ name :: post) h =
      ensureDotfiles env post
        (h1 ++ [Event.readFile (filepathJoin (filepathJoin repoRoot "dotfiles") name) (.error e)]) ∧
    (∀ mid m rest h2, post = mid ++ m :: rest →
      ensureDotfiles env (pre ++ name :: mid) h = (none, h2) →
      ((h2 ++ [Event.readFile (filepathJoin (filepathJoin repoRoot "dotfiles") m)
          (env.readFile h2 (filepathJoin (filepathJoin repoRoot "dotfiles") m))])
        <+: (ensureDotfiles env (pre ++ name :: post) h).2) ∧
      ∀ d, env.readFile h2 (filepathJoin (filepathJoin repoRoot "dotfiles") m) = .ok d →
        (h2 ++ [Event.readFile (filepathJoin (filepathJoin repoRoot "dotfiles") m) (.ok d),
            Event.writeFile (filepathJoin homeDir m) d 0o644
              (env.writeFile
                (h2 ++ [Event.readFile (filepathJoin (filepathJoin repoRoot "dotfiles") m) (.ok d)])
                (filepathJoin homeDir m) d 0o644)])
          <+: (ensureDotfiles env (pre ++ name :: post) h).2) ∧
    ((∀ t m d, m ∈ post → env.writeFile t (filepathJoin homeDir m) d 0o644 = none) →
      (ensureDotfiles env (pre ++ name :: post) h).1 = none ∧
      ∀ mid m rest, post = mid ++ m :: rest →
        (ensureDotfiles env (pre ++ name :: mid) h).1 = none) := by
  have hskip : ∀ l, ensureDotfiles env (pre ++ name :: l) h =
      ensureDotfiles env l
        (h1 ++ [Event.readFile (filepathJoin (filepathJoin repoRoot "dotfiles") name) (.error e)]) := by
    intro l
    simp only [ensureDotfiles_eq_copy env repoRoot homeDir hwd hhome] at hpre ⊢
    rw [copyDotfiles_append, hpre]
    simp [copyDotfiles, hread]
  refine ⟨hskip post, ?_, ?_⟩
  · intro mid m rest h2 hpost hreach
    subst hpost
    have hall : pre ++ name :: (mid ++ m :: rest) = (pre ++ name :: mid) ++ m :: rest := by simp
    rw [hall]
    simp only [ensureDotfiles_eq_copy env repoRoot homeDir hwd hhome] at hreach ⊢
    exact copyDotfiles_reached env _ homeDir (pre ++ name :: mid) rest m h h2 hreach
  · intro hw
    constructor
    · rw [hskip, ensureDotfiles_eq_copy env repoRoot homeDir hwd hhome]
      exact copyDotfiles_writes_ok _ _ _ _ _ hw
    · intro mid m rest hpost
      subst hpost
      rw [hskip, ensureDotfiles_eq_copy env repoRoot homeDir hwd hhome]
      exact copyDotfiles_writes_ok _ _ _ _ _ (fun t x d hx => hw t x d (by simp [hx]))

/-- Witness for C4 as amended: the first of three dotfiles has no source; the two later ones
are copied and the result is no error. -/
theorem ensureDotfiles_unreadable_skipped_witness :
    ensureDotfiles envMissingSource (["a"] ++ "missing" :: ["b", "c"]) [] =
      ensureDotfiles envMissingSource ["b", "c"]
        [Event.readFile "/r/dotfiles/a" (.ok "data"),
         Event.writeFile "/h/a" "data" 0o644 none,
         Event.readFile "/r/dotfiles/missing" (.error "no such file")] :=
  (ensureDotfiles_unreadable_skipped envMissingSource "/r" "/h" ["a"] ["b", "c"] "missing" []
    [Event.readFile "/r/dotfiles/a" (.ok "data"), Event.writeFile "/h/a" "data" 0o644 none]
    "no such file" rfl rfl (by decide) (by decide)).1

/-- Counterexample to C4 as stated.  Working directory `/r`, home directory `/h`,
declared names `missing`, `b`, `c`.  The source of `missing` cannot be read and is
skipped; the source of `b` is read and the write of `/h/b` fails, which ends the
loop.  The later name `c` has a readable source, yet its source is never read and its
destination never written. -/
theorem ensureDotfiles_later_write_failure_counterexample :
    ensureDotfiles envMissingThenWriteFails ["missing", "b", "c"] [] =
      (some "write /h/b: permission denied",
        [Event.readFile "/r/dotfiles/missing" (.error "no such file"),
         Event.readFile "/r/dotfiles/b" (.ok "data"),
         Event.writeFile "/h/b" "data" 0o644 (some "permission denied")]) ∧
    filepathJoin (filepathJoin "/r" "dotfiles") "c" = "/r/dotfiles/c" ∧
    filepathJoin "/h" "c" = "/h/c" ∧
    envMissingThenWriteFails.readFile
      (ensureDotfiles envMissingThenWriteFails ["missing", "b", "c"] []).2
      "/r/dotfiles/c" = .ok "data" ∧
    Event.readFile "/r/dotfiles/c" (.ok "data") ∉
      (ensureDotfiles envMissingThenWriteFails ["missing", "b", "c"] []).2 ∧
    Event.writeFile "/h/c" "data" 0o644 none ∉
      (ensureDotfiles envMissingThenWriteFails ["missing", "b", "c"] []).2 := by
  decide

/-! ## Final content of the destinations -/

theorem lastWrite_append (p : String) (a b : Trace) :
    lastWrite p (a ++ b) =
      match lastWrite p b with
      | some r => some r
      | none => lastWrite p a := by
  induction a with
  | nil => cases hb : lastWrite p b <;> simp [hb, lastWrite]
  | cons ev rest ih =>
    cases hb : lastWrite p b with
    | some r =>
      rw [hb] at ih
      cases ev with
      | exec argv res => simpa [lastWrite] using ih
      | readFile q res => simpa [lastWrite] using ih
      | writeFile q d perm err =>
        cases err with
        | some e => simpa [lastWrite] using ih
        | none => simp [lastWrite, ih]
    | none =>
      rw [hb] at ih
      cases ev with
      | exec argv res => simpa [lastWrite] using ih
      | readFile q res => simpa [lastWrite] using ih
      | writeFile q d perm err =>
        cases err with
        | some e => simpa [lastWrite] using ih
        | none => simp [lastWrite, ih]

theorem lastWrite_eq_none (p : String) (evs : Trace)
    (hno : ∀ q d perm err, Event.writeFile q d perm err ∈ evs → q ≠ p) :
    lastWrite p evs = none := by
  induction evs with
  | nil => rfl
  | cons ev rest ih =>
    have hrest := ih (fun q d perm err hq => hno q d perm err (by simp [hq]))
    cases ev with
    | exec argv res => simpa [lastWrite] using hrest
    | readFile q res => simpa [lastWrite] using hrest
    | writeFile q d perm err =>
      cases err with
      | some e => simpa [lastWrite] using hrest
      | none =>
        have hq : q ≠ p := hno q d perm none (by simp)
        simp [lastWrite, hrest, hq]

/-- C9, as amended.  Let the working directory and the home directory resolve and
let every read of a declared source and every write of a declared destination
succeed.  Then `ensureDotfiles` returns no error; every write it performs has the
permission argument `0644` and goes to the destination of a declared name; and for
each declared name `n` whose destination is not also the destination of a later
declared name, the last successful write to its destination holds exactly the bytes
`d` read from its source at its turn. -/
theorem ensureDotfiles_copies_last_declared (env : Env) (repoRoot homeDir : String)
    (files : List String) (h : Trace)
    (hwd : env.getwd = .ok repoRoot) (hhome : env.userHomeDir = .ok homeDir)
    (hr : ∀ t m, m ∈ files →
      ∃ d, env.readFile t (filepathJoin (filepathJoin repoRoot "dotfiles") m) = .ok d)
    (hw : ∀ t m d, m ∈ files → env.writeFile t (filepathJoin homeDir m) d 0o644 = none) :
    (ensureDotfiles env files h).1 = none ∧
    (∃ evs, (ensureDotfiles env files h).2 = h ++ evs ∧
      ∀ p d perm err, Event.writeFile p d perm err ∈ evs →
        perm = 0o644 ∧ ∃ m ∈ files, p = filepathJoin homeDir m) ∧
    (∀ pre n post, files = pre ++ n :: post →
      (∀ m ∈ post, filepathJoin homeDir m ≠ filepathJoin homeDir n) →
      ∃ h2 d, ensureDotfiles env pre h = (none, h2) ∧
        env.readFile h2 (filepathJoin (filepathJoin repoRoot "dotfiles") n) = .ok d ∧
        lastWrite (filepathJoin homeDir n) (ensureDotfiles env files h).2 = some (d, 0o644)) := by
  simp only [ensureDotfiles_eq_copy env repoRoot homeDir hwd hhome]
  refine ⟨copyDotfiles_writes_ok _ _ _ _ _ hw, ?_, ?_⟩
  · obtain ⟨evs, h1, _, _, h4⟩ :=
      copyDotfiles_extends env (filepathJoin repoRoot "dotfiles") homeDir files h
    exact ⟨evs, h1, h4⟩
  · intro pre n post hfiles hlater
    subst hfiles
    obtain ⟨h2, a1, _, a3⟩ := copyDotfiles_each_processed env
      (filepathJoin repoRoot "dotfiles") homeDir pre post n h hw
    obtain ⟨d, hd⟩ := hr h2 n (by simp)
    obtain ⟨evs, hevs, htrace⟩ := a3 d hd
    refine ⟨h2, d, a1, hd, ?_⟩
    rw [htrace, lastWrite_append]
    have hnone : lastWrite (filepathJoin homeDir n) evs = none := by
      apply lastWrite_eq_none
      intro q x perm err hq
      obtain ⟨_, y, hy, hqy⟩ := hevs q x perm err hq
      rw [hqy]
      exact hlater y hy
    rw [hnone, lastWrite_append]
    simp [lastWrite]

/-- Witness for C9 as amended: two dotfiles with distinct destinations; the
destination of the first holds the bytes of its source after the run. -/
theorem ensureDotfiles_copies_last_declared_witness :
    ∃ h2 d, ensureDotfiles envTwoSources [] [] = (none, h2) ∧
      envTwoSources.readFile h2 (filepathJoin (filepathJoin "/r" "dotfiles") "../h/f") = .ok d ∧
      lastWrite (filepathJoin "/h" "../h/f")
        (ensureDotfiles envTwoSources ["../h/f", "g"] []).2 = some (d, 0o644) :=
  (ensureDotfiles_copies_last_declared envTwoSources "/r" "/h" ["../h/f", "g"] [] rfl rfl
    (by
      intro t m hm
      by_cases hp : filepathJoin (filepathJoin "/r" "dotfiles") m = "/r/h/f"
      · exact ⟨"A", by simp [envTwoSources, hp]⟩
      · exact ⟨"B", by simp [envTwoSources, hp]⟩)
    (by intro t m d hm; rfl)).2.2 [] "../h/f" ["g"] rfl
    (by
      intro m hm
      rw [List.mem_singleton] at hm
      subst hm
      decide)

/-- Counterexample to C9 as stated.  Working directory `/r`, home directory `/h`,
declared names `../h/f` and `f`.  Both names have the destination `/h/f`; their
sources `/r/h/f` and `/r/dotfiles/f` hold `A` and `B`.  All reads and writes
succeed, the result is no error, and the destination of the first declared name ends
up holding `B`, not the bytes `A` read from its source. -/
theorem ensureDotfiles_same_destination_counterexample :
    ensureDotfiles envTwoSources ["../h/f", "f"] [] =
      (none,
        [Event.readFile "/r/h/f" (.ok "A"),
         Event.writeFile "/h/f" "A" 0o644 none,
         Event.readFile "/r/dotfiles/f" (.ok "B"),
         Event.writeFile "/h/f" "B" 0o644 none]) ∧
    filepathJoin (filepathJoin "/r" "dotfiles") "../h/f" = "/r/h/f" ∧
    filepathJoin "/h" "../h/f" = "/h/f" ∧
    lastWrite (filepathJoin "/h" "../h/f") (ensureDotfiles envTwoSources ["../h/f", "f"] []).2 =
      some ("B", 0o644) := by
  decide

/-! ## The whole run -/

theorem installHomebrew_mono (env : Env) (h : Trace) :
    h <+: (installHomebrew env h).2 := by
  simp only [installHomebrew, runCmd_fst, runCmd_snd]
  cases h1 : (env.run h versionArgv).err with
  | none => exact ⟨_, rfl⟩
  | some e =>
    simp only []
    cases h2 : (env.run (h ++ [Event.exec versionArgv (env.run h versionArgv)]) installerArgv).err with
    | none => exact ⟨_, (List.append_assoc _ _ _).symm⟩
    | some e2 => exact ⟨_, (List.append_assoc _ _ _).symm⟩

theorem LoadConfig_mono (env : Env) (path : String) (h : Trace) :
    h <+: (LoadConfig env path h).2 := by
  simp only [LoadConfig, osReadFile_fst, osReadFile_snd]
  cases env.readFile h path with
  | error e => exact ⟨_, rfl⟩
  | ok d => exact ⟨_, rfl⟩

theorem ensureTaps_mono (env : Env) (taps : List String) (h : Trace) :
    h <+: (ensureTaps env taps h).2 := by
  obtain ⟨rs, _, h2, _⟩ := ensureTaps_shape env taps h
  exact ⟨_, h2.symm⟩

theorem installFormula_mono (env : Env) (pkg : String) (h : Trace) :
    h <+: (installFormula env pkg h).2 := by
  simp only [installFormula, runCmd_fst, runCmd_snd]
  cases h1 : (env.run h (formulaListArgv pkg)).err with
  | none => exact ⟨_, rfl⟩
  | some e =>
    simp only []
    cases h2 : (env.run (h ++ [Event.exec (formulaListArgv pkg) (env.run h (formulaListArgv pkg))])
        (formulaInstallArgv pkg)).err with
    | none => exact ⟨_, (List.append_assoc _ _ _).symm⟩
    | some e2 => exact ⟨_, (List.append_assoc _ _ _).symm⟩

theorem installCask_mono (env : Env) (pkg : String) (h : Trace) :
    h <+: (installCask env pkg h).2 := by
  simp only [installCask, runCmd_fst, runCmd_snd]
  cases h1 : (env.run h (caskListArgv pkg)).err with
  | none => exact ⟨_, rfl⟩
  | some e =>
    simp only []
    cases h2 : (env.run (h ++ [Event.exec (caskListArgv pkg) (env.run h (caskListArgv pkg))])
        (caskInstallArgv pkg)).err with
    | none => exact ⟨_, (List.append_assoc _ _ _).symm⟩
    | some e2 =>
      simp only []
      split
      · exact ⟨_, (List.append_assoc _ _ _).symm⟩
      · exact ⟨_, (List.append_assoc _ _ _).symm⟩

theorem rangePkgs_mono (f : String → Trace → Option String × Trace)
    (hf : ∀ p h, h <+: (f p h).2) (pkgs : List String) (h : Trace) :
    h <+: (rangePkgs f pkgs h).2 := by
  induction pkgs generalizing h with
  | nil => exact List.prefix_refl _
  | cons p rest ih =>
    simp only [rangePkgs]
    cases hr : (f p h).1 with
    | some e => exact hf p h
    | none => exact (hf p h).trans (ih _)

theorem rangeCategories_mono (f : String → Trace → Option String × Trace)
    (hf : ∀ p h, h <+: (f p h).2) (cats : List (String × List String)) (h : Trace) :
    h <+: (rangeCategories f cats h).2 := by
  induction cats generalizing h with
  | nil => exact List.prefix_refl _
  | cons c rest ih =>
    simp only [rangeCategories]
    cases hr : (rangePkgs f c.2 h).1 with
    | some e => exact rangePkgs_mono f hf c.2 h
    | none => exact (rangePkgs_mono f hf c.2 h).trans (ih _)

theorem ensureFormulae_mono (env : Env) (cats : List (String × List String)) (h : Trace) :
    h <+: (ensureFormulae env cats h).2 :=
  rangeCategories_mono _ (installFormula_mono env) cats h

theorem ensureCasks_mono (env : Env) (cats : List (String × List String)) (h : Trace) :
    h <+: (ensureCasks env cats h).2 :=
  rangeCategories_mono _ (installCask_mono env) cats h

theorem ensureDotfiles_mono (env : Env) (files : List String) (h : Trace) :
    h <+: (ensureDotfiles env files h).2 := by
  unfold ensureDotfiles
  split
  · exact List.prefix_refl _
  · split
    · exact List.prefix_refl _
    · split
      · exact List.prefix_refl _
      · exact copyDotfiles_mono _ _ _ _ _

theorem installHomebrew_false (env : Env) (h h1 : Trace)
    (hb : installHomebrew env h = (false, h1)) :
    h1 = h ++ [Event.exec versionArgv (env.run h versionArgv),
      Event.exec installerArgv
        (env.run (h ++ [Event.exec versionArgv (env.run h versionArgv)]) installerArgv)] ∧
    (env.run h versionArgv).err ≠ none ∧
    (env.run (h ++ [Event.exec versionArgv (env.run h versionArgv)]) installerArgv).err ≠ none := by
  simp only [installHomebrew, runCmd_fst, runCmd_snd] at hb
  cases h1e : (env.run h versionArgv).err with
  | none => simp [h1e] at hb
  | some e =>
    simp only [h1e] at hb
    cases h2e : (env.run (h ++ [Event.exec versionArgv (env.run h versionArgv)]) installerArgv).err with
    | none => simp [h2e] at hb
    | some e2 =>
      simp only [h2e] at hb
      refine ⟨?_, by simp, by simp⟩
      have := (Prod.mk.inj hb).2
      rw [← this]; simp

theorem installHomebrew_true (env : Env) (h h1 : Trace)
    (hb : installHomebrew env h = (true, h1)) :
    h1 = h ++ [Event.exec versionArgv (env.run h versionArgv)] ∨
    h1 = h ++ [Event.exec versionArgv (env.run h versionArgv),
      Event.exec installerArgv
        (env.run (h ++ [Event.exec versionArgv (env.run h versionArgv)]) installerArgv)] := by
  simp only [installHomebrew, runCmd_fst, runCmd_snd] at hb
  cases h1e : (env.run h versionArgv).err with
  | none =>
    simp only [h1e] at hb
    exact Or.inl (Prod.mk.inj hb).2.symm
  | some e =>
    simp only [h1e] at hb
    cases h2e : (env.run (h ++ [Event.exec versionArgv (env.run h versionArgv)]) installerArgv).err with
    | some e2 => simp [h2e] at hb
    | none =>
      simp only [h2e] at hb
      right
      have := (Prod.mk.inj hb).2
      rw [← this]; simp

/-- C8.  `main` runs the stages in the order bootstrapper, config load, taps,
formulae, casks, dotfiles, each stage starting from the trace left by the previous
one, and the first stage that fails ends the run: the result is the fatal message of
that stage and the final trace is the trace at the end of that stage, so no later
stage adds a command, a read or a write.  When the bootstrapper returns false the
trace holds exactly the version check and the installer shell-out.  When every stage
succeeds the result is success and the trace of each stage extends that of the
previous one. -/
theorem main_forward_pass (env : Env) :
    (∀ h1, installHomebrew env [] = (false, h1) →
      main env = (some "Homebrew setup failed; aborting", h1) ∧
      h1 = [Event.exec versionArgv (env.run [] versionArgv),
        Event.exec installerArgv
          (env.run [Event.exec versionArgv (env.run [] versionArgv)] installerArgv)]) ∧
    (∀ h1 e h2, installHomebrew env [] = (true, h1) →
      LoadConfig env "config.yaml" h1 = (.error e, h2) →
      main env = (some ("failed to load config: " ++ e), h2)) ∧
    (∀ h1 cfg h2 e h3, installHomebrew env [] = (true, h1) →
      LoadConfig env "config.yaml" h1 = (.ok cfg, h2) →
      ensureTaps env cfg.Brew.Taps h2 = (some e, h3) →
      main env = (some ("tap step failed: " ++ e), h3)) ∧
    (∀ h1 cfg h2 h3 e h4, installHomebrew env [] = (true, h1) →
      LoadConfig env "config.yaml" h1 = (.ok cfg, h2) →
      ensureTaps env cfg.Brew.Taps h2 = (none, h3) →
      ensureFormulae env cfg.Brew.Formulae h3 = (some e, h4) →
      main env = (some ("formula installation failed: " ++ e), h4)) ∧
    (∀ h1 cfg h2 h3 h4 e h5, installHomebrew env [] = (true, h1) →
      LoadConfig env "config.yaml" h1 = (.ok cfg, h2) →
      ensureTaps env cfg.Brew.Taps h2 = (none, h3) →
      ensureFormulae env cfg.Brew.Formulae h3 = (none, h4) →
      ensureCasks env cfg.Brew.Casks h4 = (some e, h5) →
      main env = (some ("cask installation failed: " ++ e), h5)) ∧
    (∀ h1 cfg h2 h3 h4 h5 e h6, installHomebrew env [] = (true, h1) →
      LoadConfig env "config.yaml" h1 = (.ok cfg, h2) →
      ensureTaps env cfg.Brew.Taps h2 = (none, h3) →
      ensureFormulae env cfg.Brew.Formulae h3 = (none, h4) →
      ensureCasks env cfg.Brew.Casks h4 = (none, h5) →
      ensureDotfiles env cfg.Dotfiles h5 = (some e, h6) →
      main env = (some ("dotfile setup failed: " ++ e), h6)) ∧
    (∀ h1 cfg h2 h3 h4 h5 h6, installHomebrew env [] = (true, h1) →
      LoadConfig env "config.yaml" h1 = (.ok cfg, h2) →
      ensureTaps env cfg.Brew.Taps h2 = (none, h3) →
      ensureFormulae env cfg.Brew.Formulae h3 = (none, h4) →
      ensureCasks env cfg.Brew.Casks h4 = (none, h5) →
      ensureDotfiles env cfg.Dotfiles h5 = (none, h6) →
      main env = (none, h6) ∧
      h1 <+: h2 ∧ h2 <+: h3 ∧ h3 <+: h4 ∧ h4 <+: h5 ∧ h5 <+: h6) := by
  refine ⟨?_, ?_, ?_, ?_, ?_, ?_, ?_⟩
  · intro h1 hb
    refine ⟨by simp [main, hb], ?_⟩
    simpa using (installHomebrew_false env [] h1 hb).1
  · intro h1 e h2 hb hl
    simp [main, hb, hl]
  · intro h1 cfg h2 e h3 hb hl ht
    simp [main, hb, hl, ht]
  · intro h1 cfg h2 h3 e h4 hb hl ht hf
    simp [main, hb, hl, ht, hf]
  · intro h1 cfg h2 h3 h4 e h5 hb hl ht hf hc
    simp [main, hb, hl, ht, hf, hc]
  · intro h1 cfg h2 h3 h4 h5 e h6 hb hl ht hf hc hd
    simp [main, hb, hl, ht, hf, hc, hd]
  · intro h1 cfg h2 h3 h4 h5 h6 hb hl ht hf hc hd
    refine ⟨by simp [main, hb, hl, ht, hf, hc, hd], ?_, ?_, ?_, ?_, ?_⟩
    · have := LoadConfig_mono env "config.yaml" h1
      rwa [hl] at this
    · have := ensureTaps_mono env cfg.Brew.Taps h2
      rwa [ht] at this
    · have := ensureFormulae_mono env cfg.Brew.Formulae h3
      rwa [hf] at this
    · have := ensureCasks_mono env cfg.Brew.Casks h4
      rwa [hc] at this
    · have := ensureDotfiles_mono env cfg.Dotfiles h5
      rwa [hd] at this

/-- Witness for C8: when every command fails the bootstrapper returns false and the
run ends after the version check and the installer shell-out. -/
theorem main_forward_pass_witness :
    main envAllFail = (some "Homebrew setup failed; aborting",
      [Event.exec versionArgv ⟨some "exit status 1", "Error: unrelated"⟩,
       Event.exec installerArgv ⟨some "exit status 1", "Error: unrelated"⟩]) :=
  ((main_forward_pass envAllFail).1
    [Event.exec versionArgv ⟨some "exit status 1", "Error: unrelated"⟩,
     Event.exec installerArgv ⟨some "exit status 1", "Error: unrelated"⟩] (by decide)).1

/-- C6, as amended.  For a configuration with zero taps, zero formula categories,
zero cask categories and zero dotfiles, if the bootstrapper succeeds (leaving the
trace `h1`) and the configuration file is read and decoded, the run completes
successfully.  Its trace is the bootstrapper commands (the version check, followed
by the installer shell-out when the version check fails) and the read of
`config.yaml`: no tap, list or install command is run and no file is written. -/
theorem main_empty_config (env : Env) (h1 : Trace) (data : String) (cfg : Config)
    (hboot : installHomebrew env [] = (true, h1))
    (hread : env.readFile h1 "config.yaml" = .ok data)
    (hcfg : env.unmarshal data = .ok cfg)
    (ht : cfg.Brew.Taps = []) (hf : cfg.Brew.Formulae = []) (hc : cfg.Brew.Casks = [])
    (hd : cfg.Dotfiles = []) :
    main env = (none, h1 ++ [Event.readFile "config.yaml" (.ok data)]) ∧
    (h1 = [Event.exec versionArgv (env.run [] versionArgv)] ∨
     h1 = [Event.exec versionArgv (env.run [] versionArgv),
        Event.exec installerArgv
          (env.run [Event.exec versionArgv (env.run [] versionArgv)] installerArgv)]) := by
  constructor
  · simp [main, hboot, LoadConfig, hread, hcfg, ht, hf, hc, hd, ensureTaps, ensureFormulae,
      ensureCasks, rangeCategories, ensureDotfiles]
  · simpa using installHomebrew_true env [] h1 hboot

/-- Witness for C6 as amended: Homebrew is present and the configuration is empty. -/
theorem main_empty_config_witness :
    main envAllOk = (none, [Event.exec versionArgv ⟨none, ""⟩] ++
      [Event.readFile "config.yaml" (.ok "")]) :=
  (main_empty_config envAllOk [Event.exec versionArgv ⟨none, ""⟩] "" emptyConfig
    (by decide) (by decide) (by decide) rfl rfl rfl rfl).1

/-- Counterexample to C6 as stated.  Homebrew is present and the configuration has
zero taps, zero formula categories, zero cask categories and zero dotfiles; the run
completes successfully, and its trace holds the package-manager invocation
`brew --version`. -/
theorem main_empty_config_runs_brew_counterexample :
    LoadConfig envAllOk "config.yaml" [Event.exec versionArgv ⟨none, ""⟩] =
      (.ok emptyConfig, [Event.exec versionArgv ⟨none, ""⟩,
        Event.readFile "config.yaml" (.ok "")]) ∧
    emptyConfig.Brew.Taps = [] ∧ emptyConfig.Brew.Formulae = [] ∧
    emptyConfig.Brew.Casks = [] ∧ emptyConfig.Dotfiles = [] ∧
    (main envAllOk).1 = none ∧
    Event.exec ["brew", "--version"] ⟨none, ""⟩ ∈ (main envAllOk).2 ∧
    (Event.exec ["brew", "--version"] ⟨none, ""⟩).isBrew = true := by
  decide

end MacSetup
